import Mathlib

/-!
# Argument utilities of `src/utils.h`

A shallow embedding of the numeric-conversion family (`str2int`, `str2uint`,
`str2uint32`, `str2pint`, `str2fd`), of the argument-vector helpers
(`readin_args`, `to_argv_opt`, `to_argv`), of the buffer macros (`START_VLA`,
`START_VLA2`, `END_VLA`) and of `check_no_options`, followed by the properties
proved about them.

Conventions of the embedding:

* a C output parameter (`int *integer`) is a value passed in (the content of
  the slot before the call) and returned (its content after the call);
* the host's `legal_number` is not part of `utils.h`; every function that
  calls it takes it as the parameter `legal_number : String → Option Int`
  (`none` for the C return value `0`, `some v` for `1` with `*result = v`);
* calls of the host's `builtin_usage` and of `warnx` are recorded, in order,
  in a list of `Diag` events;
* `int` is 32 bits wide, `unsigned` and `uint32_t` are 32 bits wide, and a
  value stored into such an object is reduced explicitly (`toInt32`,
  `toUInt32`); `size_t` is 64 bits wide and its products are reduced modulo
  `2^64`;
* the results of `malloc` and `calloc`, and the host's option parser, are
  parameters as well; allocator calls and host calls are recorded in order.
-/

namespace Utils

/-! ## Constants of `<limits.h>` / `<stdint.h>` (32-bit `int`) -/

def INT_MAX : Int := 2147483647

def INT_MIN : Int := -2147483648

def UINT_MAX : Int := 4294967295

def UINT32_MAX : Int := 4294967295

def INTMAX_MAX : Int := 9223372036854775807

def INTMAX_MIN : Int := -9223372036854775808

/-- Value of an integer after it is stored into a 32-bit signed `int`
object (two's-complement reduction). -/
def toInt32 (v : Int) : Int := (v + 2147483648) % 4294967296 - 2147483648

/-- Value of an integer after it is stored into a 32-bit `unsigned` /
`uint32_t` object (reduction modulo `2^32`). -/
def toUInt32 (v : Int) : Int := v % 4294967296

/-! ## Diagnostics -/

/-- One externally visible diagnostic action: a call of the host's
`builtin_usage ()` or a call of `warnx` with the given message. -/
inductive Diag where
  | usage : Diag
  | warnx (msg : String) : Diag
  deriving DecidableEq, Repr

/-! ## Numeric conversion family -/

/-- Outcome of a conversion: the C return value and the content of the
output slot after the call. -/
structure Conv where
  status : Int
  slot : Int
  deriving DecidableEq, Repr

/-- Outcome of `str2fd`: return value, content of `*fd` after the call, and
the diagnostics emitted, in order. -/
structure FdConv where
  status : Int
  slot : Int
  diags : List Diag
  deriving DecidableEq, Repr

/-- Embedding of `int str2int(const char *str, int *integer)`; `integer` is the
content of `*integer` before the call. -/
def str2int (legal_number : String → Option Int) (str : String) (integer : Int) : Conv :=
  match legal_number str with
  | none => ⟨-1, integer⟩
  | some result =>
    if result > INT_MAX ∨ result < INT_MIN then ⟨-2, integer⟩
    else ⟨0, toInt32 result⟩

/-- Embedding of `int str2uint(const char *str, unsigned *integer)`. -/
def str2uint (legal_number : String → Option Int) (str : String) (integer : Int) : Conv :=
  match legal_number str with
  | none => ⟨-1, integer⟩
  | some result =>
    if result > UINT_MAX ∨ result < 0 then ⟨-2, integer⟩
    else ⟨0, toUInt32 result⟩

/-- Embedding of `int str2uint32(const char *str, uint32_t *integer)`. -/
def str2uint32 (legal_number : String → Option Int) (str : String) (integer : Int) : Conv :=
  match legal_number str with
  | none => ⟨-1, integer⟩
  | some result =>
    if result > UINT32_MAX ∨ result < 0 then ⟨-2, integer⟩
    else ⟨0, toUInt32 result⟩

/-- Embedding of `int str2pint(const char *str, int *integer)`: `str2int` is
run on the caller's slot, then the slot itself is read back for the sign
test. -/
def str2pint (legal_number : String → Option Int) (str : String) (integer : Int) : Conv :=
  let r := str2int legal_number str integer
  if r.status < 0 then ⟨r.status, r.slot⟩
  else if r.slot < 0 then ⟨-2, r.slot⟩
  else ⟨0, r.slot⟩

/-- Embedding of `int str2fd(const char *str, int *fd)`. -/
def str2fd (legal_number : String → Option Int) (str : String) (fd : Int) : FdConv :=
  let r := str2pint legal_number str fd
  if r.status = -1 then ⟨-1, r.slot, [Diag.usage]⟩
  else if r.status = -2 then ⟨-1, r.slot, [Diag.warnx "Input fd too large!"]⟩
  else ⟨0, r.slot, []⟩

/-! ## A concrete recognizer, used to instantiate the general statements -/

/-- Accumulates a run of decimal digits; `none` as soon as a character is not
a digit. -/
def digitsValue : List Char → Nat → Option Nat
  | [], acc => some acc
  | c :: cs, acc =>
    if c.isDigit then digitsValue cs (acc * 10 + (c.toNat - 48)) else none

/-- Magnitude of a non-empty run of decimal digits. -/
def magnitude (cs : List Char) : Option Nat :=
  match cs with
  | [] => none
  | _ :: _ => digitsValue cs 0

/-- Modelled from the spec: the legal-number recognizer is an external
facility of the host (its code is not in `utils.h`) "that determines whether a
string is a syntactically valid integer and yields its numeric value". This
instance accepts an optional sign followed by at least one decimal digit and
yields the value when it fits `intmax_t`. -/
def legal_number_dec (s : String) : Option Int :=
  let signed : Option Int :=
    match s.data with
    | '-' :: ds => (magnitude ds).map fun n => -(n : Int)
    | '+' :: ds => (magnitude ds).map fun n => (n : Int)
    | ds => (magnitude ds).map fun n => (n : Int)
  match signed with
  | none => none
  | some v => if INTMAX_MIN ≤ v ∧ v ≤ INTMAX_MAX then some v else none

/-! ## Argument-vector materialization -/

/-- The host's `WORD_LIST *`: a singly linked list of words; `NULL` is the
empty list and `l->word->word` is the head. -/
abbrev WORD_LIST := List String

/-- Storage of `const char *` slots, addressed by slot index. A pointer
`const char *argv[]` is the index of its first slot, so `argv[i]` is slot
`argv + i` and the pointer `argv + argc` is the index `argv + argc`. -/
abbrev Slots := Int → String

/-- Assignment `slots[a] = w`. -/
def store (slots : Slots) (a : Int) (w : String) : Slots :=
  fun j => if j = a then w else slots j

/-- State left by `readin_args`: its return value, the cursor `*l` and the
slot storage after the call. -/
structure ReadIn where
  ret : Int
  l : WORD_LIST
  slots : Slots

/-- The `for` loop of `readin_args`, entered with counter `i`: it runs while
`i != argc && (*l) != NULL`, stores the head word at `argv[i]`, advances the
cursor and increments the 32-bit counter. -/
def readin_loop (argc : Int) (argv : Int) : WORD_LIST → Int → Slots → ReadIn
  | [], i, slots => ⟨i, [], slots⟩
  | w :: next, i, slots =>
    if i ≠ argc then
      readin_loop argc argv next (toInt32 (i + 1)) (store slots (argv + i) w)
    else ⟨i, w :: next, slots⟩

/-- Embedding of `int readin_args(WORD_LIST **l, int argc, const char *argv[])`;
`l` is the content of `*l` before the call. -/
def readin_args (l : WORD_LIST) (argc : Int) (slots : Slots) (argv : Int) : ReadIn :=
  readin_loop argc argv l 0 slots

/-- Outcome of `to_argv_opt` / `to_argv`: return value, slot storage after
the call and the diagnostics emitted, in order. -/
structure ArgvRet where
  ret : Int
  slots : Slots
  diags : List Diag

/-- Embedding of
`int to_argv_opt(WORD_LIST *l, int argc, int opt_argc, const char *argv[])`. -/
def to_argv_opt (l : WORD_LIST) (argc opt_argc : Int) (slots : Slots) (argv : Int) : ArgvRet :=
  let r1 := readin_args l argc slots argv
  if r1.ret < argc then ⟨-1, r1.slots, [Diag.usage]⟩
  else
    let r2 := readin_args r1.l opt_argc r1.slots (argv + argc)
    if r2.l ≠ [] then ⟨-1, r2.slots, [Diag.usage]⟩
    else ⟨r2.ret, r2.slots, []⟩

/-- Embedding of `int to_argv(WORD_LIST *l, int argc, const char *argv[])`. -/
def to_argv (l : WORD_LIST) (argc : Int) (slots : Slots) (argv : Int) : ArgvRet :=
  to_argv_opt l argc 0 slots argv

/-! ## Stack/heap switching buffer (`START_VLA`, `START_VLA2`, `END_VLA`)

`size_t` is 64 bits wide and a pointer occupies 8 bytes. The macro argument
`n` is a count and `size` stands for `sizeof(type)`; every product computed by
the macros is a `size_t` product, reduced modulo `2^64`. The results of
`malloc` and `calloc` are parameters (`none` for `NULL`, `some a` for a block
at address `a`). -/

/-- Number of values of `size_t`. -/
def SIZE_MOD : Nat := 18446744073709551616

/-- The constant `sizeof(void*)`. -/
def SIZEOF_VOID_PTR : Nat := 8

/-- The macro `VLA_MAXLEN`, `(50 * sizeof(void*))`. -/
def VLA_MAXLEN : Nat := (50 * SIZEOF_VOID_PTR) % SIZE_MOD

/-- The host's status `EXECUTION_FAILURE` (declared in the host's headers, not
in `utils.h`). -/
def EXECUTION_FAILURE : Int := 1

/-- The `size_t` expression `n * sizeof(type)`. -/
def byte_size (n size : Nat) : Nat := (n * size) % SIZE_MOD

/-- Number of elements of the array declared by
`type vla[n * sizeof(type) > VLA_MAXLEN ? 0 : n]`. -/
def vla_length (n size : Nat) : Nat :=
  if byte_size n size > VLA_MAXLEN then 0 else n

/-- The `size_t` expression `sizeof(vla)`. -/
def sizeof_vla (n size : Nat) : Nat := (vla_length n size * size) % SIZE_MOD

/-- Value of the pointer `varname`: the array `vla`, a heap block, or `NULL`. -/
inductive Buffer where
  | stack : Buffer
  | heap (addr : Nat) : Buffer
  | null : Buffer
  deriving DecidableEq, Repr

/-- One call into the C allocator. -/
inductive HeapCall where
  | malloc (bytes : Nat) : HeapCall
  | calloc (n size : Nat) : HeapCall
  | free (p : Buffer) : HeapCall
  deriving DecidableEq, Repr

/-- State after a `START_VLA`: `returned` is `some s` when the macro executed
`return (s)` in the enclosing function and `none` when control continues past
the macro; `varname` is the pointer assigned; `heap` and `diags` list the
allocator calls and the diagnostics, in order. -/
structure VlaRet where
  returned : Option Int
  varname : Buffer
  heap : List HeapCall
  diags : List Diag
  deriving DecidableEq, Repr

/-- State after a `START_VLA2`: as `VlaRet`, with the bytes of the buffer
`varname` points to (`none` when there is no buffer). -/
structure Vla2Ret extends VlaRet where
  bytes : Option (Nat → Nat)

/-- Text printed by `warnx("malloc %zu failed", n * sizeof(type))`. -/
def malloc_failed_msg (bytes : Nat) : String := "malloc " ++ toString bytes ++ " failed"

/-- Text printed by `warnx("calloc %zu failed", n * sizeof(type))`. -/
def calloc_failed_msg (bytes : Nat) : String := "calloc " ++ toString bytes ++ " failed"

/-- Embedding of the statement `START_VLA(type, n, varname);`. -/
def START_VLA (malloc : Nat → Option Nat) (n size : Nat) : VlaRet :=
  if sizeof_vla n size = 0 then
    match malloc (byte_size n size) with
    | none =>
      ⟨some EXECUTION_FAILURE, Buffer.null, [HeapCall.malloc (byte_size n size)],
        [Diag.warnx (malloc_failed_msg (byte_size n size))]⟩
    | some a => ⟨none, Buffer.heap a, [HeapCall.malloc (byte_size n size)], []⟩
  else ⟨none, Buffer.stack, [], []⟩

/-- Bytes of an array after `memset(vla, 0, sizeof(vla))`, `before` being its
bytes before the call. -/
def memset_zero (before : Nat → Nat) (len : Nat) : Nat → Nat :=
  fun i => if i < len then 0 else before i

/-- Bytes of a block handed out by a successful `calloc`: the C library
zero-fills it. -/
def calloc_block : Nat → Nat := fun _ => 0

/-- Embedding of the statement `START_VLA2(type, n, varname);`; `vla0` is the
indeterminate content of the array `vla` at its declaration. -/
def START_VLA2 (calloc : Nat → Nat → Option Nat) (vla0 : Nat → Nat) (n size : Nat) : Vla2Ret :=
  if sizeof_vla n size ≠ 0 then
    { returned := none, varname := Buffer.stack, heap := [], diags := [],
      bytes := some (memset_zero vla0 (sizeof_vla n size)) }
  else
    match calloc n size with
    | none =>
      { returned := some EXECUTION_FAILURE, varname := Buffer.null,
        heap := [HeapCall.calloc n size],
        diags := [Diag.warnx (calloc_failed_msg (byte_size n size))],
        bytes := none }
    | some a =>
      { returned := none, varname := Buffer.heap a, heap := [HeapCall.calloc n size],
        diags := [], bytes := some calloc_block }

/-- Embedding of the statement `END_VLA(varname);` placed in the scope of the
array `vla` declared for `n` and `size`: the allocator calls it makes. -/
def END_VLA (n size : Nat) (varname : Buffer) : List HeapCall :=
  if sizeof_vla n size = 0 then [HeapCall.free varname] else []

/-! ## Option-rejection guard

The host's option parser (`reset_internal_getopt`, `no_options` and the global
`loptend`) is not part of `utils.h`; `check_no_options` takes the three as
parameters acting on a host state `H`. -/

/-- One call into the host's option parser. -/
inductive HostCall where
  | reset_internal_getopt : HostCall
  | no_options (l : WORD_LIST) : HostCall
  deriving DecidableEq, Repr

/-- State after `check_no_options`: return value, content of `*list`, host
state, and the calls into the host, in order. -/
structure CheckRet (H : Type) where
  ret : Int
  list : WORD_LIST
  host : H
  calls : List HostCall

/-- Embedding of `int check_no_options(WORD_LIST **list)`; `list` is the content
of `*list` before the call. -/
def check_no_options {H : Type} (reset_internal_getopt : H → H)
    (no_options : H → WORD_LIST → Int × H) (loptend : H → WORD_LIST)
    (host : H) (list : WORD_LIST) : CheckRet H :=
  let h1 := reset_internal_getopt host
  let r := no_options h1 list
  if r.1 ≠ 0 then
    ⟨-1, list, r.2, [HostCall.reset_internal_getopt, HostCall.no_options list]⟩
  else
    ⟨0, loptend r.2, r.2, [HostCall.reset_internal_getopt, HostCall.no_options list]⟩

/-- A host option-parser state: the position inside the word being scanned
and the list left after the options. -/
structure GetoptState where
  cursor : Nat
  loptend : WORD_LIST
  deriving DecidableEq, Repr

/-- Reset of the host's option-parsing cursor. -/
def getopt_reset (h : GetoptState) : GetoptState := { h with cursor := 0 }

/-- Modelled from the spec: the host's option recognizer (its code is not in
`utils.h`) "checks whether the token list contains anything recognizable as an
option" and otherwise leaves the external list pointer "past any
option-terminator marker". This instance reports an option (non-zero) when the
first word is a dash followed by something other than a lone dash, and skips a
leading `--`. -/
def getopt_no_options (h : GetoptState) (l : WORD_LIST) : Int × GetoptState :=
  match l with
  | [] => (0, { h with loptend := [] })
  | w :: rest =>
    match w.data with
    | ['-', '-'] => (0, { h with loptend := rest })
    | '-' :: _ :: _ => (1, { cursor := h.cursor + 1, loptend := l })
    | _ => (0, { h with loptend := l })

/-! ## Properties of the numeric conversion family -/

theorem toInt32_of_range (v : Int) (hlo : INT_MIN ≤ v) (hhi : v ≤ INT_MAX) : toInt32 v = v := by
  unfold toInt32
  unfold INT_MIN at hlo
  unfold INT_MAX at hhi
  omega

theorem toUInt32_of_range (v : Int) (hlo : 0 ≤ v) (hhi : v ≤ UINT32_MAX) : toUInt32 v = v := by
  unfold toUInt32
  unfold UINT32_MAX at hhi
  omega

theorem str2int_of_range (legal_number : String → Option Int) (s : String) (v out : Int)
    (hacc : legal_number s = some v) (hlo : INT_MIN ≤ v) (hhi : v ≤ INT_MAX) :
    str2int legal_number s out = ⟨0, v⟩ := by
  have hno : ¬ (v > INT_MAX ∨ v < INT_MIN) := by omega
  simp only [str2int, hacc, hno, if_false, toInt32_of_range v hlo hhi]

/-- C1: whenever the recognizer accepts `s` with a value `v` in
`[INT_MIN, INT_MAX]`, `str2int` returns 0 and the output slot holds `v`,
whatever the slot held before. -/
theorem str2int_in_range (legal_number : String → Option Int) (s : String) (v out : Int)
    (hacc : legal_number s = some v) (hlo : INT_MIN ≤ v) (hhi : v ≤ INT_MAX) :
    str2int legal_number s out = ⟨0, v⟩ := by
  have hno : ¬ (v > INT_MAX ∨ v < INT_MIN) := by omega
  simp only [str2int, hacc, hno, if_false, toInt32_of_range v hlo hhi]

theorem str2int_in_range_witness :
    legal_number_dec "-42" = some (-42) ∧ str2int legal_number_dec "-42" 7 = ⟨0, -42⟩ :=
  ⟨by decide, str2int_in_range legal_number_dec "-42" (-42) 7 (by decide) (by decide) (by decide)⟩

/-- C2 (evaluation at the failing input): on "-5" with the slot holding 0,
`str2pint` returns -2 and `str2fd` returns -1, yet in both cases the slot has
been overwritten with -5. -/
theorem str2pint_failure_overwrites_slot :
    str2pint legal_number_dec "-5" 0 = ⟨-2, -5⟩ ∧
    str2fd legal_number_dec "-5" 0 = ⟨-1, -5, [Diag.warnx "Input fd too large!"]⟩ := by
  constructor <;> decide

/-- C3: when the recognizer accepts `s` with a value outside the target range
(`[INT_MIN, INT_MAX]` for `str2int`, `[0, UINT_MAX]` for `str2uint`,
`[0, UINT32_MAX]` for `str2uint32`), the conversion returns -2 and the output
slot keeps the value it had before the call. -/
theorem out_of_range_keeps_slot (legal_number : String → Option Int) (s : String) (v out : Int)
    (hacc : legal_number s = some v) :
    ((v < INT_MIN ∨ INT_MAX < v) → str2int legal_number s out = ⟨-2, out⟩) ∧
    ((v < 0 ∨ UINT_MAX < v) → str2uint legal_number s out = ⟨-2, out⟩) ∧
    ((v < 0 ∨ UINT32_MAX < v) → str2uint32 legal_number s out = ⟨-2, out⟩) := by
  refine ⟨fun h => ?_, fun h => ?_, fun h => ?_⟩
  · have hc : v > INT_MAX ∨ v < INT_MIN := by omega
    simp only [str2int, hacc, hc, if_true]
  · have hc : v > UINT_MAX ∨ v < 0 := by omega
    simp only [str2uint, hacc, hc, if_true]
  · have hc : v > UINT32_MAX ∨ v < 0 := by omega
    simp only [str2uint32, hacc, hc, if_true]

theorem out_of_range_keeps_slot_witness :
    legal_number_dec "99999999999" = some 99999999999 ∧
    str2int legal_number_dec "99999999999" 7 = ⟨-2, 7⟩ ∧
    str2uint legal_number_dec "99999999999" 7 = ⟨-2, 7⟩ ∧
    str2uint32 legal_number_dec "99999999999" 7 = ⟨-2, 7⟩ :=
  have h := out_of_range_keeps_slot legal_number_dec "99999999999" 99999999999 7 (by decide)
  ⟨by decide, h.1 (by decide), h.2.1 (by decide), h.2.2 (by decide)⟩

/-- C4: when the recognizer rejects `s`, each of `str2int`, `str2uint`,
`str2uint32` and `str2pint` returns -1 and the output slot keeps the value it
had before the call. -/
theorem malformed_keeps_slot (legal_number : String → Option Int) (s : String) (out : Int)
    (hrej : legal_number s = none) :
    str2int legal_number s out = ⟨-1, out⟩ ∧
    str2uint legal_number s out = ⟨-1, out⟩ ∧
    str2uint32 legal_number s out = ⟨-1, out⟩ ∧
    str2pint legal_number s out = ⟨-1, out⟩ := by
  have h1 : str2int legal_number s out = ⟨-1, out⟩ := by simp only [str2int, hrej]
  refine ⟨h1, ?_, ?_, ?_⟩
  · simp only [str2uint, hrej]
  · simp only [str2uint32, hrej]
  · simp [str2pint, h1]

theorem malformed_keeps_slot_witness :
    (legal_number_dec "abc" = none ∧ str2int legal_number_dec "abc" 7 = ⟨-1, 7⟩ ∧
      str2pint legal_number_dec "abc" 7 = ⟨-1, 7⟩) ∧
    (legal_number_dec "12x" = none ∧ str2uint legal_number_dec "12x" 7 = ⟨-1, 7⟩) ∧
    (legal_number_dec "" = none ∧ str2uint32 legal_number_dec "" 7 = ⟨-1, 7⟩) :=
  have ha := malformed_keeps_slot legal_number_dec "abc" 7 (by decide)
  have hb := malformed_keeps_slot legal_number_dec "12x" 7 (by decide)
  have hc := malformed_keeps_slot legal_number_dec "" 7 (by decide)
  ⟨⟨by decide, ha.1, ha.2.2.2⟩, ⟨by decide, hb.2.1⟩, ⟨by decide, hc.2.2.1⟩⟩

theorem str2pint_of_reject (legal_number : String → Option Int) (s : String) (out : Int)
    (hrej : legal_number s = none) : str2pint legal_number s out = ⟨-1, out⟩ := by
  simp [str2pint, str2int, hrej]

theorem str2pint_of_beyond_int (legal_number : String → Option Int) (s : String) (v out : Int)
    (hacc : legal_number s = some v) (h : v < INT_MIN ∨ INT_MAX < v) :
    str2pint legal_number s out = ⟨-2, out⟩ := by
  have hc : v > INT_MAX ∨ v < INT_MIN := by omega
  simp [str2pint, str2int, hacc, hc]

theorem str2pint_of_negative_int (legal_number : String → Option Int) (s : String) (v out : Int)
    (hacc : legal_number s = some v) (hlo : INT_MIN ≤ v) (hneg : v < 0) :
    str2pint legal_number s out = ⟨-2, v⟩ := by
  have hhi : v ≤ INT_MAX := by unfold INT_MAX; omega
  simp [str2pint, str2int_of_range legal_number s v out hacc hlo hhi, hneg]

theorem str2pint_of_nonneg_int (legal_number : String → Option Int) (s : String) (v out : Int)
    (hacc : legal_number s = some v) (hlo : 0 ≤ v) (hhi : v ≤ INT_MAX) :
    str2pint legal_number s out = ⟨0, v⟩ := by
  have hmin : INT_MIN ≤ v := by unfold INT_MIN; omega
  have hn : ¬ v < 0 := by omega
  simp [str2pint, str2int_of_range legal_number s v out hacc hmin hhi, hn]

/-- C5: when the recognizer accepts `s` with value `v`, `str2pint` returns 0
exactly when `0 ≤ v ≤ INT_MAX`, in which case the slot holds `v`, and returns
-2 for every other accepted value, negative ones included. -/
theorem str2pint_accepted (legal_number : String → Option Int) (s : String) (v out : Int)
    (hacc : legal_number s = some v) :
    ((str2pint legal_number s out).status = 0 ↔ (0 ≤ v ∧ v ≤ INT_MAX)) ∧
    ((0 ≤ v ∧ v ≤ INT_MAX) → str2pint legal_number s out = ⟨0, v⟩) ∧
    (¬ (0 ≤ v ∧ v ≤ INT_MAX) → (str2pint legal_number s out).status = -2) ∧
    (v < 0 → (str2pint legal_number s out).status = -2) := by
  have hok : (0 ≤ v ∧ v ≤ INT_MAX) → str2pint legal_number s out = ⟨0, v⟩ :=
    fun h => str2pint_of_nonneg_int legal_number s v out hacc h.1 h.2
  have hbad : ¬ (0 ≤ v ∧ v ≤ INT_MAX) → (str2pint legal_number s out).status = -2 := by
    intro h
    by_cases hb : v < INT_MIN ∨ INT_MAX < v
    · rw [str2pint_of_beyond_int legal_number s v out hacc hb]
    · have hlo : INT_MIN ≤ v := by omega
      have hneg : v < 0 := by omega
      rw [str2pint_of_negative_int legal_number s v out hacc hlo hneg]
  refine ⟨⟨fun h0 => ?_, fun h => ?_⟩, hok, hbad, fun hneg => hbad (by omega)⟩
  · by_contra hn
    rw [hbad hn] at h0
    omega
  · rw [hok h]

theorem str2pint_accepted_witness :
    (legal_number_dec "5" = some 5 ∧ str2pint legal_number_dec "5" 7 = ⟨0, 5⟩) ∧
    (legal_number_dec "-5" = some (-5) ∧ (str2pint legal_number_dec "-5" 7).status = -2) :=
  ⟨⟨by decide, (str2pint_accepted legal_number_dec "5" 5 7 (by decide)).2.1 (by decide)⟩,
   ⟨by decide, (str2pint_accepted legal_number_dec "-5" (-5) 7 (by decide)).2.2.2 (by decide)⟩⟩

/-- C6: when the recognizer accepts `s` with value `v`, `str2uint32` (and
`str2uint`, `unsigned` being 32 bits wide) returns 0 exactly when
`0 ≤ v ≤ 2^32 - 1`; on success the stored unsigned value is `v` itself, not a
residue modulo `2^32`; every negative `v` and every `v ≥ 2^32` yields -2. -/
theorem str2uint32_accepted (legal_number : String → Option Int) (s : String) (v out : Int)
    (hacc : legal_number s = some v) :
    ((str2uint32 legal_number s out).status = 0 ↔ (0 ≤ v ∧ v ≤ 2 ^ 32 - 1)) ∧
    ((str2uint legal_number s out).status = 0 ↔ (0 ≤ v ∧ v ≤ 2 ^ 32 - 1)) ∧
    ((0 ≤ v ∧ v ≤ 2 ^ 32 - 1) →
      str2uint32 legal_number s out = ⟨0, v⟩ ∧ str2uint legal_number s out = ⟨0, v⟩) ∧
    ((v < 0 ∨ 2 ^ 32 ≤ v) →
      (str2uint32 legal_number s out).status = -2 ∧
      (str2uint legal_number s out).status = -2) := by
  have e32 : UINT32_MAX = 2 ^ 32 - 1 := by decide
  have eu : UINT_MAX = 2 ^ 32 - 1 := by decide
  by_cases h : 0 ≤ v ∧ v ≤ 2 ^ 32 - 1
  · have hc1 : ¬ (v > UINT32_MAX ∨ v < 0) := by rw [e32]; omega
    have hc2 : ¬ (v > UINT_MAX ∨ v < 0) := by rw [eu]; omega
    have hw : toUInt32 v = v := toUInt32_of_range v h.1 (by rw [e32]; exact h.2)
    have r1 : str2uint32 legal_number s out = ⟨0, v⟩ := by
      simp only [str2uint32, hacc, hc1, if_false, hw]
    have r2 : str2uint legal_number s out = ⟨0, v⟩ := by
      simp only [str2uint, hacc, hc2, if_false, hw]
    refine ⟨?_, ?_, fun _ => ⟨r1, r2⟩, fun hb => ?_⟩
    · rw [r1]; exact ⟨fun _ => h, fun _ => rfl⟩
    · rw [r2]; exact ⟨fun _ => h, fun _ => rfl⟩
    · omega
  · have hc1 : v > UINT32_MAX ∨ v < 0 := by rw [e32]; omega
    have hc2 : v > UINT_MAX ∨ v < 0 := by rw [eu]; omega
    have r1 : str2uint32 legal_number s out = ⟨-2, out⟩ := by
      simp only [str2uint32, hacc, hc1, if_true]
    have r2 : str2uint legal_number s out = ⟨-2, out⟩ := by
      simp only [str2uint, hacc, hc2, if_true]
    refine ⟨?_, ?_, fun hh => absurd hh h, fun _ => ?_⟩
    · rw [r1]; exact ⟨fun h0 => absurd h0 (by simp), fun hh => absurd hh h⟩
    · rw [r2]; exact ⟨fun h0 => absurd h0 (by simp), fun hh => absurd hh h⟩
    · rw [r1, r2]; exact ⟨rfl, rfl⟩

theorem str2uint32_accepted_witness :
    (legal_number_dec "4294967295" = some 4294967295 ∧
      str2uint32 legal_number_dec "4294967295" 7 = ⟨0, 4294967295⟩ ∧
      str2uint legal_number_dec "4294967295" 7 = ⟨0, 4294967295⟩) ∧
    (legal_number_dec "4294967296" = some 4294967296 ∧
      (str2uint32 legal_number_dec "4294967296" 7).status = -2 ∧
      (str2uint legal_number_dec "4294967296" 7).status = -2) :=
  ⟨⟨by decide,
    (str2uint32_accepted legal_number_dec "4294967295" 4294967295 7 (by decide)).2.2.1
      (by decide)⟩,
   ⟨by decide,
    (str2uint32_accepted legal_number_dec "4294967296" 4294967296 7 (by decide)).2.2.2
      (by decide)⟩⟩

/-- C7: `str2fd` returns 0 exactly when `str2pint` returns 0 and -1 otherwise,
never -2; a rejected string triggers the usage action exactly once and no
warning; an accepted number that is negative or exceeds `INT_MAX` triggers the
warning exactly once and no usage action; success triggers neither. -/
theorem str2fd_outcome (legal_number : String → Option Int) (s : String) (fd : Int) :
    ((str2fd legal_number s fd).status = 0 ↔ (str2pint legal_number s fd).status = 0) ∧
    ((str2pint legal_number s fd).status ≠ 0 → (str2fd legal_number s fd).status = -1) ∧
    (str2fd legal_number s fd).status ≠ -2 ∧
    (legal_number s = none → (str2fd legal_number s fd).diags = [Diag.usage]) ∧
    (∀ v : Int, legal_number s = some v → (v < 0 ∨ INT_MAX < v) →
      (str2fd legal_number s fd).diags = [Diag.warnx "Input fd too large!"]) ∧
    ((str2fd legal_number s fd).status = 0 → (str2fd legal_number s fd).diags = []) := by
  cases hl : legal_number s with
  | none =>
    have hp := str2pint_of_reject legal_number s fd hl
    simp [str2fd, hp]
  | some v =>
    by_cases hb : v < INT_MIN ∨ INT_MAX < v
    · have hp := str2pint_of_beyond_int legal_number s v fd hl hb
      simp [str2fd, hp]
    · have hlo : INT_MIN ≤ v := by omega
      by_cases hneg : v < 0
      · have hp := str2pint_of_negative_int legal_number s v fd hl hlo hneg
        simp [str2fd, hp]
      · have hp := str2pint_of_nonneg_int legal_number s v fd hl (by omega) (by omega)
        simp [str2fd, hp]
        omega

theorem str2fd_outcome_witness :
    (legal_number_dec "abc" = none ∧ (str2fd legal_number_dec "abc" 7).diags = [Diag.usage]) ∧
    (legal_number_dec "-5" = some (-5) ∧
      (str2fd legal_number_dec "-5" 7).diags = [Diag.warnx "Input fd too large!"]) ∧
    ((str2fd legal_number_dec "3" 7).status = 0 ∧ (str2fd legal_number_dec "3" 7).diags = []) ∧
    ((str2pint legal_number_dec "2147483648" 7).status ≠ 0 ∧
      (str2fd legal_number_dec "2147483648" 7).status = -1) :=
  ⟨⟨by decide, (str2fd_outcome legal_number_dec "abc" 7).2.2.2.1 (by decide)⟩,
   ⟨by decide, (str2fd_outcome legal_number_dec "-5" 7).2.2.2.2.1 (-5) (by decide) (by decide)⟩,
   ⟨by decide, (str2fd_outcome legal_number_dec "3" 7).2.2.2.2.2 (by decide)⟩,
   ⟨by decide, (str2fd_outcome legal_number_dec "2147483648" 7).2.1 (by decide)⟩⟩

/-! ## Properties of the argument-vector helpers -/

theorem store_same (slots : Slots) (a : Int) (w : String) : store slots a w a = w := by
  simp [store]

theorem store_other (slots : Slots) (a j : Int) (w : String) (h : j ≠ a) :
    store slots a w j = slots j := by
  simp [store, h]

/-- Behaviour of the loop of `readin_args` entered with a counter `i` in
`[0, argc]`: the final counter, the final cursor, the slots written and
the slots left alone. -/
theorem readin_loop_spec (argc argv : Int) (hmax : argc ≤ INT_MAX) :
    ∀ (l : WORD_LIST) (i : Int) (slots : Slots), 0 ≤ i → i ≤ argc →
      (readin_loop argc argv l i slots).ret = min argc (i + (l.length : Int)) ∧
      (readin_loop argc argv l i slots).l
        = l.drop ((readin_loop argc argv l i slots).ret - i).toNat ∧
      (∀ k : Nat, i + (k : Int) < (readin_loop argc argv l i slots).ret →
        l[k]? = some ((readin_loop argc argv l i slots).slots (argv + (i + (k : Int))))) ∧
      (∀ j : Int, (j < argv + i ∨ argv + (readin_loop argc argv l i slots).ret ≤ j) →
        (readin_loop argc argv l i slots).slots j = slots j) := by
  intro l
  induction l with
  | nil =>
    intro i slots h0 hi
    simp only [readin_loop, List.length_nil]
    refine ⟨by omega, by simp, fun k hk => by omega, fun j _ => trivial⟩
  | cons w next ih =>
    intro i slots h0 hi
    by_cases hne : i = argc
    · have hexit : readin_loop argc argv (w :: next) i slots = ⟨i, w :: next, slots⟩ := by
        simp [readin_loop, hne]
      rw [hexit]
      simp only [List.length_cons]
      refine ⟨by push_cast; omega, by simp, fun k hk => by omega, fun j _ => trivial⟩
    · have hlt : i < argc := by omega
      have hw : toInt32 (i + 1) = i + 1 :=
        toInt32_of_range _ (by unfold INT_MIN; omega) (by omega)
      have hstep : readin_loop argc argv (w :: next) i slots
          = readin_loop argc argv next (i + 1) (store slots (argv + i) w) := by
        simp [readin_loop, hne, hw]
      rw [hstep]
      obtain ⟨r1, r2, r3, r4⟩ := ih (i + 1) (store slots (argv + i) w) (by omega) (by omega)
      generalize readin_loop argc argv next (i + 1) (store slots (argv + i) w) = r at r1 r2 r3 r4
      have hge : i + 1 ≤ r.ret := by rw [r1]; omega
      refine ⟨?_, ?_, ?_, ?_⟩
      · rw [r1]; simp only [List.length_cons]; push_cast; omega
      · rw [r2]
        have e : (r.ret - i).toNat = (r.ret - (i + 1)).toNat + 1 := by omega
        rw [e, List.drop_succ_cons]
      · intro k hk
        cases k with
        | zero =>
          have hfr := r4 (argv + i) (Or.inl (by omega))
          simp only [List.getElem?_cons_zero, Nat.cast_zero, add_zero]
          rw [hfr, store_same]
        | succ k =>
          have hk2 : i + 1 + (k : Int) < r.ret := by push_cast at hk; omega
          have := r3 k hk2
          simp only [List.getElem?_cons_succ]
          rw [this]
          have e : argv + (i + 1 + (k : Int)) = argv + (i + ((k + 1 : Nat) : Int)) := by
            push_cast; omega
          rw [e]
      · intro j hj
        have hfr := r4 j (by omega)
        rw [hfr]
        exact store_other slots (argv + i) j w (by omega)

/-- Facts about `readin_args` for a count `argc` in `[0, INT_MAX]`. -/
theorem readin_args_facts (l : WORD_LIST) (argc : Int) (slots : Slots) (argv : Int)
    (h0 : 0 ≤ argc) (hmax : argc ≤ INT_MAX) :
    (readin_args l argc slots argv).ret = min argc (l.length : Int) ∧
    (readin_args l argc slots argv).l = l.drop (readin_args l argc slots argv).ret.toNat ∧
    (∀ k : Nat, (k : Int) < (readin_args l argc slots argv).ret →
      l[k]? = some ((readin_args l argc slots argv).slots (argv + (k : Int)))) ∧
    (∀ k : Int, (k < 0 ∨ (readin_args l argc slots argv).ret ≤ k) →
      (readin_args l argc slots argv).slots (argv + k) = slots (argv + k)) := by
  obtain ⟨r1, r2, r3, r4⟩ := readin_loop_spec argc argv hmax l 0 slots (le_refl 0) h0
  unfold readin_args
  refine ⟨by rw [r1]; simp, by simpa using r2, fun k hk => ?_, fun k hk => ?_⟩
  · have := r3 k (by omega)
    simpa using this
  · exact r4 (argv + k) (by omega)

/-- C8: for a token list of length `n` and a count `argc` in `[0, INT_MAX]`,
`readin_args` returns `min argc n`; for every `k` below the returned count
`argv[k]` is the `k`-th token of the original list; every other slot, in
particular each slot at or beyond the returned count, is unchanged; the cursor
is the original list with that many leading tokens dropped. -/
theorem readin_args_spec (l : WORD_LIST) (argc : Int) (slots : Slots) (argv : Int)
    (h0 : 0 ≤ argc) (hmax : argc ≤ INT_MAX) :
    (readin_args l argc slots argv).ret = min argc (l.length : Int) ∧
    (∀ k : Nat, (k : Int) < (readin_args l argc slots argv).ret →
      l[k]? = some ((readin_args l argc slots argv).slots (argv + (k : Int)))) ∧
    (∀ k : Int, (k < 0 ∨ (readin_args l argc slots argv).ret ≤ k) →
      (readin_args l argc slots argv).slots (argv + k) = slots (argv + k)) ∧
    (readin_args l argc slots argv).l
      = l.drop (readin_args l argc slots argv).ret.toNat := by
  obtain ⟨r1, r2, r3, r4⟩ := readin_args_facts l argc slots argv h0 hmax
  exact ⟨r1, r3, r4, r2⟩

theorem readin_args_spec_witness :
    (0 : Int) ≤ 2 ∧ (2 : Int) ≤ INT_MAX ∧
    (readin_args ["a", "b", "c"] 2 (fun _ => "") 5).ret = min 2 (["a", "b", "c"].length : Int) ∧
    (readin_args ["a", "b", "c"] 2 (fun _ => "") 5).l
      = ["a", "b", "c"].drop (readin_args ["a", "b", "c"] 2 (fun _ => "") 5).ret.toNat :=
  have h := readin_args_spec ["a", "b", "c"] 2 (fun _ => "") 5 (by decide) (by decide)
  ⟨by decide, by decide, h.1, h.2.2.2⟩

/-- The three outcomes of `to_argv_opt` for counts in `[0, INT_MAX]`: too few
tokens, too many tokens, and an admissible number of tokens. -/
theorem to_argv_opt_cases (l : WORD_LIST) (argc opt_argc : Int) (slots : Slots) (argv : Int)
    (h0 : 0 ≤ argc) (hmax : argc ≤ INT_MAX) (ho0 : 0 ≤ opt_argc) (homax : opt_argc ≤ INT_MAX) :
    ((l.length : Int) < argc →
      (to_argv_opt l argc opt_argc slots argv).ret = -1 ∧
      (to_argv_opt l argc opt_argc slots argv).diags = [Diag.usage]) ∧
    (argc + opt_argc < (l.length : Int) →
      (to_argv_opt l argc opt_argc slots argv).ret = -1 ∧
      (to_argv_opt l argc opt_argc slots argv).diags = [Diag.usage]) ∧
    (argc ≤ (l.length : Int) → (l.length : Int) ≤ argc + opt_argc →
      (to_argv_opt l argc opt_argc slots argv).ret = (l.length : Int) - argc ∧
      (to_argv_opt l argc opt_argc slots argv).diags = []) := by
  obtain ⟨a1, a2, -, -⟩ := readin_args_facts l argc slots argv h0 hmax
  by_cases hfew : (l.length : Int) < argc
  · have hlt : (readin_args l argc slots argv).ret < argc := by rw [a1]; omega
    have hr : to_argv_opt l argc opt_argc slots argv
        = ⟨-1, (readin_args l argc slots argv).slots, [Diag.usage]⟩ := by
      simp only [to_argv_opt, hlt, if_true]
    rw [hr]
    exact ⟨fun _ => ⟨rfl, rfl⟩, fun h => by omega, fun h => by omega⟩
  · have hret : (readin_args l argc slots argv).ret = argc := by rw [a1]; omega
    have hnlt : ¬ (readin_args l argc slots argv).ret < argc := by omega
    rw [hret] at a2
    obtain ⟨b1, b2, -, -⟩ := readin_args_facts (readin_args l argc slots argv).l opt_argc
      (readin_args l argc slots argv).slots (argv + argc) ho0 homax
    have hlen : (((readin_args l argc slots argv).l.length : Nat) : Int)
        = (l.length : Int) - argc := by
      rw [a2, List.length_drop]; omega
    rw [hlen] at b1
    have hlen2 : (readin_args (readin_args l argc slots argv).l opt_argc
        (readin_args l argc slots argv).slots (argv + argc)).l.length
        = (readin_args l argc slots argv).l.length
          - (readin_args (readin_args l argc slots argv).l opt_argc
              (readin_args l argc slots argv).slots (argv + argc)).ret.toNat := by
      conv_lhs => rw [b2]
      rw [List.length_drop]
    by_cases hmany : argc + opt_argc < (l.length : Int)
    · have hne : (readin_args (readin_args l argc slots argv).l opt_argc
          (readin_args l argc slots argv).slots (argv + argc)).l ≠ [] := by
        intro hnil
        rw [hnil, List.length_nil] at hlen2
        omega
      have hr : to_argv_opt l argc opt_argc slots argv
          = ⟨-1, (readin_args (readin_args l argc slots argv).l opt_argc
              (readin_args l argc slots argv).slots (argv + argc)).slots, [Diag.usage]⟩ := by
        simp only [to_argv_opt, hnlt, if_false, hne, ne_eq, not_false_eq_true, if_true]
      rw [hr]
      exact ⟨fun h => by omega, fun _ => ⟨rfl, rfl⟩, fun _ h => by omega⟩
    · have hnil : (readin_args (readin_args l argc slots argv).l opt_argc
          (readin_args l argc slots argv).slots (argv + argc)).l = [] := by
        apply List.eq_nil_of_length_eq_zero
        omega
      have hr : to_argv_opt l argc opt_argc slots argv
          = ⟨(readin_args (readin_args l argc slots argv).l opt_argc
              (readin_args l argc slots argv).slots (argv + argc)).ret,
             (readin_args (readin_args l argc slots argv).l opt_argc
              (readin_args l argc slots argv).slots (argv + argc)).slots, []⟩ := by
        simp only [to_argv_opt, hnlt, if_false, hnil, ne_eq, not_true_eq_false]
      rw [hr]
      refine ⟨fun h => by omega, fun h => by omega, fun _ _ => ⟨?_, rfl⟩⟩
      show (readin_args (readin_args l argc slots argv).l opt_argc
              (readin_args l argc slots argv).slots (argv + argc)).ret = (l.length : Int) - argc
      rw [b1]; omega

/-- C9: for a token list of length `n` and counts `argc`, `opt_argc` in
`[0, INT_MAX]`, `to_argv_opt` returns -1 exactly when `n < argc` or
`n > argc + opt_argc`; otherwise it returns `n - argc`, which lies in
`[0, opt_argc]`. -/
theorem to_argv_opt_ret (l : WORD_LIST) (argc opt_argc : Int) (slots : Slots) (argv : Int)
    (h0 : 0 ≤ argc) (hmax : argc ≤ INT_MAX) (ho0 : 0 ≤ opt_argc) (homax : opt_argc ≤ INT_MAX) :
    ((to_argv_opt l argc opt_argc slots argv).ret = -1 ↔
      ((l.length : Int) < argc ∨ argc + opt_argc < (l.length : Int))) ∧
    (¬ ((l.length : Int) < argc ∨ argc + opt_argc < (l.length : Int)) →
      (to_argv_opt l argc opt_argc slots argv).ret = (l.length : Int) - argc ∧
      0 ≤ (to_argv_opt l argc opt_argc slots argv).ret ∧
      (to_argv_opt l argc opt_argc slots argv).ret ≤ opt_argc) := by
  obtain ⟨c1, c2, c3⟩ := to_argv_opt_cases l argc opt_argc slots argv h0 hmax ho0 homax
  have hgood : ¬ ((l.length : Int) < argc ∨ argc + opt_argc < (l.length : Int)) →
      (to_argv_opt l argc opt_argc slots argv).ret = (l.length : Int) - argc := fun h =>
    (c3 (by omega) (by omega)).1
  refine ⟨⟨fun hm => ?_, fun h => ?_⟩, fun h => ?_⟩
  · by_contra hn
    have := hgood hn
    omega
  · rcases h with h | h
    · exact (c1 h).1
    · exact (c2 h).1
  · have := hgood h
    exact ⟨this, by omega, by omega⟩

theorem to_argv_opt_ret_witness :
    (0 : Int) ≤ 1 ∧ (1 : Int) ≤ INT_MAX ∧ (0 : Int) ≤ 2 ∧ (2 : Int) ≤ INT_MAX ∧
    ((to_argv_opt ["a", "b"] 1 2 (fun _ => "") 5).ret = (["a", "b"].length : Int) - 1 ∧
      0 ≤ (to_argv_opt ["a", "b"] 1 2 (fun _ => "") 5).ret ∧
      (to_argv_opt ["a", "b"] 1 2 (fun _ => "") 5).ret ≤ 2) :=
  ⟨by decide, by decide, by decide, by decide,
    (to_argv_opt_ret ["a", "b"] 1 2 (fun _ => "") 5
      (by decide) (by decide) (by decide) (by decide)).2 (by decide)⟩

/-- C10: for a token list of length `n` and a count `argc` in `[0, INT_MAX]`,
`to_argv` returns 0 exactly when `n = argc` and -1 otherwise. -/
theorem to_argv_ret (l : WORD_LIST) (argc : Int) (slots : Slots) (argv : Int)
    (h0 : 0 ≤ argc) (hmax : argc ≤ INT_MAX) :
    ((to_argv l argc slots argv).ret = 0 ↔ (l.length : Int) = argc) ∧
    ((l.length : Int) ≠ argc → (to_argv l argc slots argv).ret = -1) := by
  obtain ⟨c1, c2, c3⟩ :=
    to_argv_opt_cases l argc 0 slots argv h0 hmax (le_refl 0) (by decide)
  have hbad : (l.length : Int) ≠ argc → (to_argv l argc slots argv).ret = -1 := by
    intro hne
    unfold to_argv
    by_cases hfew : (l.length : Int) < argc
    · exact (c1 hfew).1
    · exact (c2 (by omega)).1
  refine ⟨⟨fun hz => ?_, fun he => ?_⟩, hbad⟩
  · by_contra hne
    have := hbad hne
    omega
  · unfold to_argv
    have := (c3 (by omega) (by omega)).1
    omega

theorem to_argv_ret_witness :
    (0 : Int) ≤ 2 ∧ (2 : Int) ≤ INT_MAX ∧
    (to_argv ["a", "b"] 2 (fun _ => "") 5).ret = 0 ∧
    (to_argv ["a"] 2 (fun _ => "") 5).ret = -1 ∧
    (to_argv ["a", "b", "c"] 2 (fun _ => "") 5).ret = -1 :=
  ⟨by decide, by decide,
    (to_argv_ret ["a", "b"] 2 (fun _ => "") 5 (by decide) (by decide)).1.2 (by decide),
    (to_argv_ret ["a"] 2 (fun _ => "") 5 (by decide) (by decide)).2 (by decide),
    (to_argv_ret ["a", "b", "c"] 2 (fun _ => "") 5 (by decide) (by decide)).2 (by decide)⟩

/-! ## Properties of the stack/heap switching buffer -/

/-- The test `sizeof(vla) == 0` of the macros, for an element size of at least
one byte and a byte size that fits `size_t`: it holds for an empty request and
for a request above the threshold. -/
theorem sizeof_vla_eq_zero_iff (n size : Nat) (hsize : 0 < size) (hfit : n * size < SIZE_MOD) :
    sizeof_vla n size = 0 ↔ (n = 0 ∨ VLA_MAXLEN < n * size) := by
  have hb : byte_size n size = n * size := Nat.mod_eq_of_lt hfit
  unfold sizeof_vla vla_length
  rw [hb]
  by_cases hgt : n * size > VLA_MAXLEN
  · simp [hgt]
  · rw [if_neg hgt, Nat.mod_eq_of_lt hfit]
    constructor
    · intro h0
      rcases Nat.mul_eq_zero.mp h0 with h | h
      · exact Or.inl h
      · omega
    · rintro (h | h)
      · simp [h]
      · omega

theorem START_VLA_of_heap_test (malloc : Nat → Option Nat) (n size : Nat)
    (h : sizeof_vla n size = 0) :
    START_VLA malloc n size =
      match malloc (byte_size n size) with
      | none =>
        ⟨some EXECUTION_FAILURE, Buffer.null, [HeapCall.malloc (byte_size n size)],
          [Diag.warnx (malloc_failed_msg (byte_size n size))]⟩
      | some a => ⟨none, Buffer.heap a, [HeapCall.malloc (byte_size n size)], []⟩ := by
  simp only [START_VLA, h, if_true]

theorem START_VLA_of_stack_test (malloc : Nat → Option Nat) (n size : Nat)
    (h : sizeof_vla n size ≠ 0) :
    START_VLA malloc n size = ⟨none, Buffer.stack, [], []⟩ := by
  simp only [START_VLA, h, if_false]

/-- C11 (as stated, refuted): a request for zero elements of 8 bytes is within
the threshold, yet `START_VLA` calls `malloc` and `varname` is the heap
block. -/
theorem START_VLA_empty_request_allocates :
    0 * 8 ≤ VLA_MAXLEN ∧
    (START_VLA (fun _ => some 4096) 0 8).heap = [HeapCall.malloc 0] ∧
    (START_VLA (fun _ => some 4096) 0 8).varname = Buffer.heap 4096 ∧
    ¬ ((START_VLA (fun _ => some 4096) 0 8).heap = [] ↔ 0 * 8 ≤ VLA_MAXLEN) := by
  decide

/-- Path taken by `START_VLA` for an element size of at least one byte and a
byte size `n * size` that fits `size_t`, in terms of `n` and `n * size`. -/
theorem START_VLA_path (malloc : Nat → Option Nat) (n size : Nat)
    (hsize : 0 < size) (hfit : n * size < SIZE_MOD) :
    (((START_VLA malloc n size).varname = Buffer.stack ∧ (START_VLA malloc n size).heap = [])
      ↔ (0 < n ∧ n * size ≤ VLA_MAXLEN)) ∧
    ((START_VLA malloc n size).heap = [HeapCall.malloc (n * size)]
      ↔ (n = 0 ∨ VLA_MAXLEN < n * size)) := by
  have hiff := sizeof_vla_eq_zero_iff n size hsize hfit
  have hb : byte_size n size = n * size := Nat.mod_eq_of_lt hfit
  by_cases hz : sizeof_vla n size = 0
  · have hc := hiff.mp hz
    have hr := START_VLA_of_heap_test malloc n size hz
    rw [hb] at hr
    constructor
    · constructor
      · rintro ⟨hv, hh⟩
        rw [hr] at hh
        cases hm : malloc (n * size) <;> rw [hm] at hh <;> simp at hh
      · intro h
        omega
    · constructor
      · intro _
        exact hc
      · intro _
        rw [hr]
        cases hm : malloc (n * size) <;> rfl
  · have hc : ¬ (n = 0 ∨ VLA_MAXLEN < n * size) := fun h => hz (hiff.mpr h)
    have hr := START_VLA_of_stack_test malloc n size hz
    rw [hr]
    constructor
    · constructor
      · intro _
        omega
      · intro _
        exact ⟨rfl, rfl⟩
    · constructor
      · intro h
        simp at h
      · intro h
        exact absurd h hc

/-- C11 (amended): for an element count `n ≥ 1`, an element size of at least
one byte and a byte size `n * size` that fits `size_t`, `START_VLA` uses the
array `vla` and makes no allocator call exactly when `n * size ≤ VLA_MAXLEN`,
and calls `malloc (n * size)` exactly when `n * size > VLA_MAXLEN`. -/
theorem START_VLA_choice (malloc : Nat → Option Nat) (n size : Nat)
    (hn : 0 < n) (hsize : 0 < size) (hfit : n * size < SIZE_MOD) :
    (((START_VLA malloc n size).varname = Buffer.stack ∧ (START_VLA malloc n size).heap = [])
      ↔ n * size ≤ VLA_MAXLEN) ∧
    ((START_VLA malloc n size).heap = [HeapCall.malloc (n * size)]
      ↔ VLA_MAXLEN < n * size) := by
  obtain ⟨p1, p2⟩ := START_VLA_path malloc n size hsize hfit
  constructor
  · rw [p1]
    exact ⟨fun h => h.2, fun h => ⟨hn, h⟩⟩
  · rw [p2]
    constructor
    · rintro (h | h)
      · omega
      · exact h
    · exact fun h => Or.inr h

theorem START_VLA_choice_witness :
    ((START_VLA (fun _ => some 4096) 10 8).varname = Buffer.stack ∧
      (START_VLA (fun _ => some 4096) 10 8).heap = []) ∧
    (START_VLA (fun _ => some 4096) 1000 8).heap = [HeapCall.malloc (1000 * 8)] :=
  ⟨(START_VLA_choice (fun _ => some 4096) 10 8 (by decide) (by decide) (by decide)).1.2
      (by decide),
   (START_VLA_choice (fun _ => some 4096) 1000 8 (by decide) (by decide) (by decide)).2.2
      (by decide)⟩

theorem START_VLA2_of_stack_test (calloc : Nat → Nat → Option Nat) (vla0 : Nat → Nat)
    (n size : Nat) (h : sizeof_vla n size ≠ 0) :
    START_VLA2 calloc vla0 n size =
      { returned := none, varname := Buffer.stack, heap := [], diags := [],
        bytes := some (memset_zero vla0 (sizeof_vla n size)) } := by
  simp only [START_VLA2, h, ne_eq, not_false_eq_true, if_true]

theorem START_VLA2_of_null (calloc : Nat → Nat → Option Nat) (vla0 : Nat → Nat)
    (n size : Nat) (h : sizeof_vla n size = 0) (hc : calloc n size = none) :
    START_VLA2 calloc vla0 n size =
      { returned := some EXECUTION_FAILURE, varname := Buffer.null,
        heap := [HeapCall.calloc n size],
        diags := [Diag.warnx (calloc_failed_msg (byte_size n size))],
        bytes := none } := by
  simp only [START_VLA2, h, ne_eq, not_true_eq_false, if_false, hc]

theorem START_VLA2_of_block (calloc : Nat → Nat → Option Nat) (vla0 : Nat → Nat)
    (n size a : Nat) (h : sizeof_vla n size = 0) (hc : calloc n size = some a) :
    START_VLA2 calloc vla0 n size =
      { returned := none, varname := Buffer.heap a, heap := [HeapCall.calloc n size],
        diags := [], bytes := some calloc_block } := by
  simp only [START_VLA2, h, ne_eq, not_true_eq_false, if_false, hc]

/-- C13: when `START_VLA` (resp. `START_VLA2`) takes the heap path and the
allocator returns `NULL`, the enclosing function returns `EXECUTION_FAILURE`
after exactly one diagnostic and nothing else; when the allocator succeeds or
the stack path is taken, control continues with no diagnostic and no
return. -/
theorem START_VLA_failure_path (malloc : Nat → Option Nat) (calloc : Nat → Nat → Option Nat)
    (vla0 : Nat → Nat) (n size : Nat) :
    ((START_VLA malloc n size).heap ≠ [] → malloc (byte_size n size) = none →
      START_VLA malloc n size =
        ⟨some EXECUTION_FAILURE, Buffer.null, [HeapCall.malloc (byte_size n size)],
          [Diag.warnx (malloc_failed_msg (byte_size n size))]⟩) ∧
    (((START_VLA malloc n size).heap = [] ∨ malloc (byte_size n size) ≠ none) →
      (START_VLA malloc n size).returned = none ∧ (START_VLA malloc n size).diags = []) ∧
    ((START_VLA2 calloc vla0 n size).heap ≠ [] → calloc n size = none →
      (START_VLA2 calloc vla0 n size).returned = some EXECUTION_FAILURE ∧
      (START_VLA2 calloc vla0 n size).heap = [HeapCall.calloc n size] ∧
      (START_VLA2 calloc vla0 n size).diags
        = [Diag.warnx (calloc_failed_msg (byte_size n size))]) ∧
    (((START_VLA2 calloc vla0 n size).heap = [] ∨ calloc n size ≠ none) →
      (START_VLA2 calloc vla0 n size).returned = none ∧
      (START_VLA2 calloc vla0 n size).diags = []) := by
  by_cases hz : sizeof_vla n size = 0
  · have hr := START_VLA_of_heap_test malloc n size hz
    refine ⟨?_, ?_, ?_, ?_⟩
    · intro _ hm
      rw [hr, hm]
    · intro h
      cases hm : malloc (byte_size n size) with
      | none =>
        rw [hm] at hr
        rw [hr] at h
        simp [hm] at h
      | some a =>
        rw [hm] at hr
        rw [hr]
        exact ⟨rfl, rfl⟩
    · intro _ hc
      rw [START_VLA2_of_null calloc vla0 n size hz hc]
      exact ⟨rfl, rfl, rfl⟩
    · intro h
      cases hc : calloc n size with
      | none =>
        rw [START_VLA2_of_null calloc vla0 n size hz hc] at h
        simp [hc] at h
      | some a =>
        rw [START_VLA2_of_block calloc vla0 n size a hz hc]
        exact ⟨rfl, rfl⟩
  · have hr := START_VLA_of_stack_test malloc n size hz
    have hr2 := START_VLA2_of_stack_test calloc vla0 n size hz
    refine ⟨?_, ?_, ?_, ?_⟩
    · intro h
      rw [hr] at h
      exact absurd rfl h
    · intro _
      rw [hr]
      exact ⟨rfl, rfl⟩
    · intro h
      rw [hr2] at h
      exact absurd rfl h
    · intro _
      rw [hr2]
      exact ⟨rfl, rfl⟩

theorem START_VLA_failure_path_witness :
    (START_VLA (fun _ => none) 1000 8 =
      ⟨some EXECUTION_FAILURE, Buffer.null, [HeapCall.malloc (byte_size 1000 8)],
        [Diag.warnx (malloc_failed_msg (byte_size 1000 8))]⟩) ∧
    ((START_VLA (fun _ => some 4096) 1000 8).returned = none ∧
      (START_VLA (fun _ => some 4096) 1000 8).diags = []) ∧
    ((START_VLA2 (fun _ _ => none) (fun _ => 7) 1000 8).returned = some EXECUTION_FAILURE ∧
      (START_VLA2 (fun _ _ => none) (fun _ => 7) 1000 8).heap = [HeapCall.calloc 1000 8] ∧
      (START_VLA2 (fun _ _ => none) (fun _ => 7) 1000 8).diags
        = [Diag.warnx (calloc_failed_msg (byte_size 1000 8))]) ∧
    ((START_VLA2 (fun _ _ => none) (fun _ => 7) 10 8).returned = none ∧
      (START_VLA2 (fun _ _ => none) (fun _ => 7) 10 8).diags = []) :=
  ⟨(START_VLA_failure_path (fun _ => none) (fun _ _ => none) (fun _ => 7) 1000 8).1
      (by decide) (by decide),
   (START_VLA_failure_path (fun _ => some 4096) (fun _ _ => none) (fun _ => 7) 1000 8).2.1
      (Or.inr (by decide)),
   (START_VLA_failure_path (fun _ => none) (fun _ _ => none) (fun _ => 7) 1000 8).2.2.1
      (by decide) (by decide),
   (START_VLA_failure_path (fun _ => none) (fun _ _ => none) (fun _ => 7) 10 8).2.2.2
      (Or.inl (by decide))⟩

/-- C14: after a `START_VLA` or `START_VLA2` that did not return, the matching
`END_VLA` calls `free` on `varname` exactly when `varname` is a heap block and
makes no call exactly when `varname` is the array `vla`; so over the pair a
heap block is freed once and the array `vla` is never passed to `free`. -/
theorem END_VLA_matches_start (malloc : Nat → Option Nat) (calloc : Nat → Nat → Option Nat)
    (vla0 : Nat → Nat) (n size : Nat) :
    ((START_VLA malloc n size).returned = none →
      (((∃ a, (START_VLA malloc n size).varname = Buffer.heap a) ↔
          END_VLA n size (START_VLA malloc n size).varname
            = [HeapCall.free (START_VLA malloc n size).varname]) ∧
       ((START_VLA malloc n size).varname = Buffer.stack ↔
          END_VLA n size (START_VLA malloc n size).varname = []) ∧
       ((∃ a, (START_VLA malloc n size).varname = Buffer.heap a) ∨
          (START_VLA malloc n size).varname = Buffer.stack))) ∧
    ((START_VLA2 calloc vla0 n size).returned = none →
      (((∃ a, (START_VLA2 calloc vla0 n size).varname = Buffer.heap a) ↔
          END_VLA n size (START_VLA2 calloc vla0 n size).varname
            = [HeapCall.free (START_VLA2 calloc vla0 n size).varname]) ∧
       ((START_VLA2 calloc vla0 n size).varname = Buffer.stack ↔
          END_VLA n size (START_VLA2 calloc vla0 n size).varname = []) ∧
       ((∃ a, (START_VLA2 calloc vla0 n size).varname = Buffer.heap a) ∨
          (START_VLA2 calloc vla0 n size).varname = Buffer.stack))) := by
  by_cases hz : sizeof_vla n size = 0
  · have he : ∀ v, END_VLA n size v = [HeapCall.free v] := fun v => by
      simp only [END_VLA, hz, if_true]
    constructor
    · intro hret
      have hr := START_VLA_of_heap_test malloc n size hz
      cases hm : malloc (byte_size n size) with
      | none =>
        rw [hm] at hr
        rw [hr] at hret
        simp at hret
      | some a =>
        rw [hm] at hr
        have hv : (START_VLA malloc n size).varname = Buffer.heap a := by rw [hr]
        rw [hv, he]
        simp
    · intro hret
      cases hc : calloc n size with
      | none =>
        rw [START_VLA2_of_null calloc vla0 n size hz hc] at hret
        simp at hret
      | some a =>
        have hv : (START_VLA2 calloc vla0 n size).varname = Buffer.heap a := by
          rw [START_VLA2_of_block calloc vla0 n size a hz hc]
        rw [hv, he]
        simp
  · have he : ∀ v, END_VLA n size v = [] := fun v => by
      simp only [END_VLA, hz, if_false]
    constructor
    · intro _
      have hv : (START_VLA malloc n size).varname = Buffer.stack := by
        rw [START_VLA_of_stack_test malloc n size hz]
      rw [hv, he]
      simp
    · intro _
      have hv : (START_VLA2 calloc vla0 n size).varname = Buffer.stack := by
        rw [START_VLA2_of_stack_test calloc vla0 n size hz]
      rw [hv, he]
      simp

theorem END_VLA_matches_start_witness :
    ((START_VLA (fun _ => some 4096) 1000 8).returned = none ∧
      ((START_VLA (fun _ => some 4096) 1000 8).heap
        ++ END_VLA 1000 8 (START_VLA (fun _ => some 4096) 1000 8).varname
        = [HeapCall.malloc 8000, HeapCall.free (Buffer.heap 4096)]) ∧
      ((∃ a, (START_VLA (fun _ => some 4096) 1000 8).varname = Buffer.heap a) ↔
        END_VLA 1000 8 (START_VLA (fun _ => some 4096) 1000 8).varname
          = [HeapCall.free (START_VLA (fun _ => some 4096) 1000 8).varname])) ∧
    ((START_VLA2 (fun _ _ => none) (fun _ => 7) 10 8).returned = none ∧
      ((START_VLA2 (fun _ _ => none) (fun _ => 7) 10 8).varname = Buffer.stack ↔
        END_VLA 10 8 (START_VLA2 (fun _ _ => none) (fun _ => 7) 10 8).varname = [])) :=
  ⟨⟨by decide, by decide,
    ((END_VLA_matches_start (fun _ => some 4096) (fun _ _ => none) (fun _ => 7) 1000 8).1
      (by decide)).1⟩,
   ⟨by decide,
    ((END_VLA_matches_start (fun _ => none) (fun _ _ => none) (fun _ => 7) 10 8).2
      (by decide)).2.1⟩⟩

theorem sizeof_vla_of_stack_test (n size : Nat) (hfit : n * size < SIZE_MOD)
    (h : sizeof_vla n size ≠ 0) : sizeof_vla n size = n * size := by
  unfold sizeof_vla vla_length at h ⊢
  by_cases hgt : byte_size n size > VLA_MAXLEN
  · rw [if_pos hgt] at h
    simp at h
  · rw [if_neg hgt]
    exact Nat.mod_eq_of_lt hfit

/-- C17 (as stated, refuted): for `2^61 + 1` elements of 8 bytes the `size_t`
product `n * sizeof(type)` is 8, so `START_VLA2` takes the stack path and
continues, `sizeof(vla)` is 8 and `memset` clears 8 bytes only: byte 8, the
first byte of element 1, keeps its previous content 7. -/
theorem START_VLA2_oversized_request_not_zeroed :
    (START_VLA2 (fun _ _ => none) (fun _ => 7) 2305843009213693953 8).returned = none ∧
    (START_VLA2 (fun _ _ => none) (fun _ => 7) 2305843009213693953 8).varname = Buffer.stack ∧
    sizeof_vla 2305843009213693953 8 = 8 ∧
    (START_VLA2 (fun _ _ => none) (fun _ => 7) 2305843009213693953 8).bytes.map
      (fun b => b (1 * 8 + 0)) = some 7 ∧
    ¬ ((START_VLA2 (fun _ _ => none) (fun _ => 7) 2305843009213693953 8).returned = none →
      ∃ b, (START_VLA2 (fun _ _ => none) (fun _ => 7) 2305843009213693953 8).bytes = some b ∧
        ∀ k j : Nat, k < 2305843009213693953 → j < 8 → b (k * 8 + j) = 0) := by
  have hz : sizeof_vla 2305843009213693953 8 ≠ 0 := by decide
  have hr := START_VLA2_of_stack_test (fun _ _ => none) (fun _ => 7) 2305843009213693953 8 hz
  have hs : sizeof_vla 2305843009213693953 8 = 8 := by decide
  rw [hr, hs]
  refine ⟨rfl, rfl, rfl, by decide, fun h => ?_⟩
  obtain ⟨b, hb, hzero⟩ := h rfl
  have hb2 : memset_zero (fun _ => 7) 8 = b := Option.some.inj hb
  have h8 := hzero 1 0 (by decide) (by decide)
  rw [← hb2] at h8
  exact absurd h8 (by decide)

/-- C17 (amended): given the same allocator outcome, for every `n` and element
size `START_VLA2` assigns the same `varname` (the array `vla`, a heap block, or
`NULL`), makes an allocator call in the same cases and takes the same
continue-or-return decision as `START_VLA`; when the byte size `n * size` fits
`size_t` and `START_VLA2` does not return, every byte of each of the `n`
elements of the buffer is zero, on the stack path and on the heap path
alike. -/
theorem START_VLA2_agrees_and_zeroes (malloc : Nat → Option Nat)
    (calloc : Nat → Nat → Option Nat) (vla0 : Nat → Nat) (n size : Nat)
    (hsame : calloc n size = malloc (byte_size n size)) :
    (START_VLA2 calloc vla0 n size).varname = (START_VLA malloc n size).varname ∧
    (START_VLA2 calloc vla0 n size).returned = (START_VLA malloc n size).returned ∧
    ((START_VLA2 calloc vla0 n size).heap = [] ↔ (START_VLA malloc n size).heap = []) ∧
    (n * size < SIZE_MOD → (START_VLA2 calloc vla0 n size).returned = none →
      ∃ b, (START_VLA2 calloc vla0 n size).bytes = some b ∧
        ∀ k j : Nat, k < n → j < size → b (k * size + j) = 0) := by
  by_cases hz : sizeof_vla n size = 0
  · have hr := START_VLA_of_heap_test malloc n size hz
    cases hm : malloc (byte_size n size) with
    | none =>
      rw [hm] at hr hsame
      rw [hr, START_VLA2_of_null calloc vla0 n size hz hsame]
      refine ⟨rfl, rfl, by simp, fun _ h => ?_⟩
      simp at h
    | some a =>
      rw [hm] at hr hsame
      rw [hr, START_VLA2_of_block calloc vla0 n size a hz hsame]
      refine ⟨rfl, rfl, by simp, fun _ _ => ⟨calloc_block, rfl, fun k j _ _ => rfl⟩⟩
  · rw [START_VLA_of_stack_test malloc n size hz,
      START_VLA2_of_stack_test calloc vla0 n size hz]
    refine ⟨rfl, rfl, by simp, fun hfit _ => ⟨_, rfl, fun k j hk hj => ?_⟩⟩
    rw [sizeof_vla_of_stack_test n size hfit hz]
    have hle : (k + 1) * size ≤ n * size := Nat.mul_le_mul_right size hk
    have hlt : k * size + j < n * size := by
      rw [Nat.add_mul, Nat.one_mul] at hle
      omega
    simp [memset_zero, hlt]

theorem START_VLA2_agrees_and_zeroes_witness :
    ((fun (_ : Nat) (_ : Nat) => some 4096) 10 8 = (fun (_ : Nat) => some 4096) (byte_size 10 8)) ∧
    10 * 8 < SIZE_MOD ∧
    (START_VLA2 (fun _ _ => some 4096) (fun _ => 7) 10 8).varname
      = (START_VLA (fun _ => some 4096) 10 8).varname ∧
    (∃ b, (START_VLA2 (fun _ _ => some 4096) (fun _ => 7) 10 8).bytes = some b ∧
        ∀ k j : Nat, k < 10 → j < 8 → b (k * 8 + j) = 0) ∧
    ((START_VLA2 (fun _ _ => none) (fun _ => 7) 2305843009213693953 8).varname
      = (START_VLA (fun _ => none) 2305843009213693953 8).varname) :=
  have h := START_VLA2_agrees_and_zeroes (fun _ => some 4096) (fun _ _ => some 4096)
    (fun _ => 7) 10 8 rfl
  ⟨rfl, by decide, h.1, h.2.2.2 (by decide) (by decide),
    (START_VLA2_agrees_and_zeroes (fun _ => none) (fun _ _ => none)
      (fun _ => 7) 2305843009213693953 8 rfl).1⟩

/-! ## Properties of the option-rejection guard -/

/-- C12: `check_no_options` first resets the host's option-parsing cursor and
then runs the recognizer on `*list`, in both cases; when the recognizer reports
an option it returns -1 and leaves `*list` unchanged; when it reports none it
returns 0 with `*list` set to the host's `loptend`. -/
theorem check_no_options_spec {H : Type} (reset_internal_getopt : H → H)
    (no_options : H → WORD_LIST → Int × H) (loptend : H → WORD_LIST)
    (host : H) (list : WORD_LIST) :
    ((no_options (reset_internal_getopt host) list).1 ≠ 0 →
      (check_no_options reset_internal_getopt no_options loptend host list).ret = -1 ∧
      (check_no_options reset_internal_getopt no_options loptend host list).list = list) ∧
    ((no_options (reset_internal_getopt host) list).1 = 0 →
      (check_no_options reset_internal_getopt no_options loptend host list).ret = 0 ∧
      (check_no_options reset_internal_getopt no_options loptend host list).list
        = loptend (no_options (reset_internal_getopt host) list).2) ∧
    (check_no_options reset_internal_getopt no_options loptend host list).calls
      = [HostCall.reset_internal_getopt, HostCall.no_options list] ∧
    (check_no_options reset_internal_getopt no_options loptend host list).host
      = (no_options (reset_internal_getopt host) list).2 := by
  by_cases h : (no_options (reset_internal_getopt host) list).1 = 0
  · simp [check_no_options, h]
  · simp [check_no_options, h]

theorem check_no_options_spec_witness :
    ((check_no_options getopt_reset getopt_no_options GetoptState.loptend
        ⟨3, []⟩ ["-x", "file"]).ret = -1 ∧
      (check_no_options getopt_reset getopt_no_options GetoptState.loptend
        ⟨3, []⟩ ["-x", "file"]).list = ["-x", "file"]) ∧
    ((check_no_options getopt_reset getopt_no_options GetoptState.loptend
        ⟨3, []⟩ ["--", "file"]).ret = 0 ∧
      (check_no_options getopt_reset getopt_no_options GetoptState.loptend
        ⟨3, []⟩ ["--", "file"]).list
        = GetoptState.loptend (getopt_no_options (getopt_reset ⟨3, []⟩) ["--", "file"]).2) :=
  ⟨(check_no_options_spec getopt_reset getopt_no_options GetoptState.loptend
      ⟨3, []⟩ ["-x", "file"]).1 (by decide),
   (check_no_options_spec getopt_reset getopt_no_options GetoptState.loptend
      ⟨3, []⟩ ["--", "file"]).2.1 (by decide)⟩

/-! ## Further properties of the argument-vector helpers -/

/-- C15: for counts in `[0, INT_MAX]`, `to_argv_opt` calls the usage action
exactly once when it returns -1, for too few as for too many tokens, and not at
all when it succeeds. -/
theorem to_argv_opt_usage_once (l : WORD_LIST) (argc opt_argc : Int) (slots : Slots)
    (argv : Int) (h0 : 0 ≤ argc) (hmax : argc ≤ INT_MAX) (ho0 : 0 ≤ opt_argc)
    (homax : opt_argc ≤ INT_MAX) :
    ((to_argv_opt l argc opt_argc slots argv).ret = -1 →
      (to_argv_opt l argc opt_argc slots argv).diags = [Diag.usage]) ∧
    ((to_argv_opt l argc opt_argc slots argv).ret ≠ -1 →
      (to_argv_opt l argc opt_argc slots argv).diags = []) ∧
    ((l.length : Int) < argc →
      (to_argv_opt l argc opt_argc slots argv).ret = -1 ∧
      (to_argv_opt l argc opt_argc slots argv).diags = [Diag.usage]) ∧
    (argc + opt_argc < (l.length : Int) →
      (to_argv_opt l argc opt_argc slots argv).ret = -1 ∧
      (to_argv_opt l argc opt_argc slots argv).diags = [Diag.usage]) := by
  obtain ⟨c1, c2, c3⟩ := to_argv_opt_cases l argc opt_argc slots argv h0 hmax ho0 homax
  refine ⟨fun hm => ?_, fun hs => ?_, c1, c2⟩
  · by_cases hfew : (l.length : Int) < argc
    · exact (c1 hfew).2
    · by_cases hmany : argc + opt_argc < (l.length : Int)
      · exact (c2 hmany).2
      · have := (c3 (by omega) (by omega)).1
        omega
  · by_cases hfew : (l.length : Int) < argc
    · exact absurd (c1 hfew).1 hs
    · by_cases hmany : argc + opt_argc < (l.length : Int)
      · exact absurd (c2 hmany).1 hs
      · exact (c3 (by omega) (by omega)).2

theorem to_argv_opt_usage_once_witness :
    (to_argv_opt ["a"] 2 1 (fun _ => "") 5).diags = [Diag.usage] ∧
    (to_argv_opt ["a", "b", "c", "d"] 2 1 (fun _ => "") 5).diags = [Diag.usage] ∧
    (to_argv_opt ["a", "b", "c"] 2 1 (fun _ => "") 5).diags = [] :=
  ⟨((to_argv_opt_usage_once ["a"] 2 1 (fun _ => "") 5
      (by decide) (by decide) (by decide) (by decide)).2.2.1 (by decide)).2,
   ((to_argv_opt_usage_once ["a", "b", "c", "d"] 2 1 (fun _ => "") 5
      (by decide) (by decide) (by decide) (by decide)).2.2.2 (by decide)).2,
   (to_argv_opt_usage_once ["a", "b", "c"] 2 1 (fun _ => "") 5
      (by decide) (by decide) (by decide) (by decide)).2.1 (by decide)⟩

/-- When `to_argv_opt` emits no diagnostic, its return value and slots are those
left by its second `readin_args`. -/
theorem to_argv_opt_of_no_diag (l : WORD_LIST) (argc opt_argc : Int) (slots : Slots)
    (argv : Int) (hd : (to_argv_opt l argc opt_argc slots argv).diags = []) :
    (to_argv_opt l argc opt_argc slots argv).slots
      = (readin_args (readin_args l argc slots argv).l opt_argc
          (readin_args l argc slots argv).slots (argv + argc)).slots ∧
    (to_argv_opt l argc opt_argc slots argv).ret
      = (readin_args (readin_args l argc slots argv).l opt_argc
          (readin_args l argc slots argv).slots (argv + argc)).ret := by
  unfold to_argv_opt at hd ⊢
  simp only [] at hd ⊢
  split_ifs at hd ⊢ with h1 h2
  exact ⟨rfl, rfl⟩

/-- C16: for counts in `[0, INT_MAX]` and a list of `n` tokens with
`argc ≤ n ≤ argc + opt_argc`, `to_argv_opt` succeeds and afterwards `argv[k]`
is the `k`-th token of the list for every `k < n` (required tokens in slots
`0 .. argc-1`, optional ones following from slot `argc`), while every other
slot, in particular each slot at index `n` and above, is unchanged. -/
theorem to_argv_opt_slots (l : WORD_LIST) (argc opt_argc : Int) (slots : Slots)
    (argv : Int) (h0 : 0 ≤ argc) (hmax : argc ≤ INT_MAX) (ho0 : 0 ≤ opt_argc)
    (homax : opt_argc ≤ INT_MAX) (hlo : argc ≤ (l.length : Int))
    (hhi : (l.length : Int) ≤ argc + opt_argc) :
    (to_argv_opt l argc opt_argc slots argv).ret = (l.length : Int) - argc ∧
    (∀ k : Nat, k < l.length →
      l[k]? = some ((to_argv_opt l argc opt_argc slots argv).slots (argv + (k : Int)))) ∧
    (∀ k : Int, (k < 0 ∨ (l.length : Int) ≤ k) →
      (to_argv_opt l argc opt_argc slots argv).slots (argv + k) = slots (argv + k)) := by
  obtain ⟨-, -, c3⟩ := to_argv_opt_cases l argc opt_argc slots argv h0 hmax ho0 homax
  obtain ⟨hret, hd⟩ := c3 hlo hhi
  obtain ⟨hs, hr⟩ := to_argv_opt_of_no_diag l argc opt_argc slots argv hd
  obtain ⟨a1, a2, a3, a4⟩ := readin_args_facts l argc slots argv h0 hmax
  obtain ⟨b1, b2, b3, b4⟩ := readin_args_facts (readin_args l argc slots argv).l opt_argc
    (readin_args l argc slots argv).slots (argv + argc) ho0 homax
  have ha : (readin_args l argc slots argv).ret = argc := by rw [a1]; omega
  rw [ha] at a2 a3 a4
  rw [← hr, hret] at b3 b4
  rw [← hs] at b3 b4
  refine ⟨hret, fun k hk => ?_, fun k hk => ?_⟩
  · by_cases hka : (k : Int) < argc
    · have e : argv + (k : Int) = argv + argc + ((k : Int) - argc) := by omega
      rw [e, b4 ((k : Int) - argc) (Or.inl (by omega)), ← e]
      exact a3 k hka
    · have hk2 : ((k - argc.toNat : Nat) : Int) < (l.length : Int) - argc := by omega
      have hb := b3 (k - argc.toNat) hk2
      rw [a2, List.getElem?_drop] at hb
      have e1 : argc.toNat + (k - argc.toNat) = k := by omega
      have e2 : argv + argc + ((k - argc.toNat : Nat) : Int) = argv + (k : Int) := by omega
      rw [e1, e2] at hb
      exact hb
  · have e : argv + k = argv + argc + (k - argc) := by omega
    rw [e, b4 (k - argc) (by omega), ← e]
    exact a4 k (by omega)

theorem to_argv_opt_slots_witness :
    (to_argv_opt ["a", "b", "c"] 2 2 (fun _ => "") 5).ret = (["a", "b", "c"].length : Int) - 2 ∧
    (∀ k : Nat, k < ["a", "b", "c"].length →
      ["a", "b", "c"][k]?
        = some ((to_argv_opt ["a", "b", "c"] 2 2 (fun _ => "") 5).slots (5 + (k : Int)))) :=
  have h := to_argv_opt_slots ["a", "b", "c"] 2 2 (fun _ => "") 5
    (by decide) (by decide) (by decide) (by decide) (by decide) (by decide)
  ⟨h.1, h.2.1⟩

/-- Behaviour of the loop of `readin_args` for a negative count, entered with
a counter `i ≥ 0` such that `i` plus the number of remaining tokens does not
exceed `INT_MAX`: the counter never equals the count, so the loop runs until
the list is exhausted. -/
theorem readin_loop_negative (argc argv : Int) (hneg : argc < 0) :
    ∀ (l : WORD_LIST) (i : Int) (slots : Slots), 0 ≤ i → i + (l.length : Int) ≤ INT_MAX →
      (readin_loop argc argv l i slots).ret = i + (l.length : Int) ∧
      (readin_loop argc argv l i slots).l = [] ∧
      (∀ k : Nat, k < l.length →
        l[k]? = some ((readin_loop argc argv l i slots).slots (argv + (i + (k : Int))))) ∧
      (∀ j : Int, (j < argv + i ∨ argv + (i + (l.length : Int)) ≤ j) →
        (readin_loop argc argv l i slots).slots j = slots j) := by
  intro l
  induction l with
  | nil =>
    intro i slots h0 hi
    simp only [readin_loop, List.length_nil]
    refine ⟨by simp, trivial, fun k hk => absurd hk (Nat.not_lt_zero k), fun j _ => trivial⟩
  | cons w next ih =>
    intro i slots h0 hi
    simp only [List.length_cons] at hi ⊢
    push_cast at hi
    have hne : i ≠ argc := by omega
    have hw : toInt32 (i + 1) = i + 1 :=
      toInt32_of_range _ (by unfold INT_MIN; omega) (by omega)
    have hstep : readin_loop argc argv (w :: next) i slots
        = readin_loop argc argv next (i + 1) (store slots (argv + i) w) := by
      simp [readin_loop, hne, hw]
    rw [hstep]
    obtain ⟨r1, r2, r3, r4⟩ := ih (i + 1) (store slots (argv + i) w) (by omega) (by omega)
    generalize readin_loop argc argv next (i + 1) (store slots (argv + i) w) = r at r1 r2 r3 r4
    refine ⟨by rw [r1]; push_cast; omega, r2, ?_, ?_⟩
    · intro k hk
      cases k with
      | zero =>
        have hfr := r4 (argv + i) (Or.inl (by omega))
        simp only [List.getElem?_cons_zero, Nat.cast_zero, add_zero]
        rw [hfr, store_same]
      | succ k =>
        have := r3 k (by omega)
        simp only [List.getElem?_cons_succ]
        rw [this]
        have e : argv + (i + 1 + (k : Int)) = argv + (i + ((k + 1 : Nat) : Int)) := by
          push_cast; omega
        rw [e]
    · intro j hj
      have hfr := r4 j (by push_cast at hj; omega)
      rw [hfr]
      exact store_other slots (argv + i) j w (by push_cast at hj; omega)

/-- Facts about `readin_args` for a negative count and a list of at most
`INT_MAX` tokens. -/
theorem readin_args_negative_facts (l : WORD_LIST) (argc : Int) (slots : Slots) (argv : Int)
    (hneg : argc < 0) (hlen : (l.length : Int) ≤ INT_MAX) :
    (readin_args l argc slots argv).ret = (l.length : Int) ∧
    (readin_args l argc slots argv).l = [] ∧
    (∀ k : Nat, k < l.length →
      l[k]? = some ((readin_args l argc slots argv).slots (argv + (k : Int)))) ∧
    (∀ k : Int, (k < 0 ∨ (l.length : Int) ≤ k) →
      (readin_args l argc slots argv).slots (argv + k) = slots (argv + k)) := by
  obtain ⟨r1, r2, r3, r4⟩ :=
    readin_loop_negative argc argv hneg l 0 slots (le_refl 0) (by omega)
  unfold readin_args
  refine ⟨by rw [r1]; simp, r2, fun k hk => ?_, fun k hk => ?_⟩
  · have := r3 k hk
    simpa using this
  · exact r4 (argv + k) (by omega)

/-- C18: for a list of `n < 2^31` tokens and a negative count, `readin_args`
does not stop at the count: it returns `n`, leaves the cursor empty and has
written the `k`-th token to `argv[k]` for every `k < n`. Consequently
`to_argv_opt` with that negative optional count and a required count `req`
(an `int`) not above `n` emits no usage call and returns a non-negative value
(`n - req` when `req ≥ 0`), however many tokens follow the required ones. -/
theorem readin_args_negative_count (l : WORD_LIST) (argc : Int) (slots : Slots) (argv : Int)
    (hneg : argc < 0) (hlen : (l.length : Int) < 2 ^ 31) :
    (readin_args l argc slots argv).ret = (l.length : Int) ∧
    (readin_args l argc slots argv).l = [] ∧
    (∀ k : Nat, k < l.length →
      l[k]? = some ((readin_args l argc slots argv).slots (argv + (k : Int)))) ∧
    (∀ req : Int, req ≤ INT_MAX → req ≤ (l.length : Int) →
      (to_argv_opt l req argc slots argv).diags = [] ∧
      0 ≤ (to_argv_opt l req argc slots argv).ret ∧
      (0 ≤ req → (to_argv_opt l req argc slots argv).ret = (l.length : Int) - req)) := by
  have hmaxlen : (l.length : Int) ≤ INT_MAX := by unfold INT_MAX; omega
  obtain ⟨n1, n2, n3, -⟩ := readin_args_negative_facts l argc slots argv hneg hmaxlen
  refine ⟨n1, n2, n3, fun req hreq hle => ?_⟩
  have hfirst : ¬ (readin_args l req slots argv).ret < req ∧
      ((readin_args l req slots argv).l.length : Int) ≤ INT_MAX ∧
      (0 ≤ req → ((readin_args l req slots argv).l.length : Int) = (l.length : Int) - req) := by
    by_cases hr0 : 0 ≤ req
    · obtain ⟨a1, a2, -, -⟩ := readin_args_facts l req slots argv hr0 hreq
      have ha : (readin_args l req slots argv).ret = req := by rw [a1]; omega
      rw [ha] at a2
      have hl : ((readin_args l req slots argv).l.length : Int) = (l.length : Int) - req := by
        rw [a2, List.length_drop]; omega
      exact ⟨by omega, by omega, fun _ => hl⟩
    · obtain ⟨a1, a2, -, -⟩ :=
        readin_args_negative_facts l req slots argv (by omega) hmaxlen
      rw [a1, a2]
      exact ⟨by omega, by simp [INT_MAX], fun h => absurd h hr0⟩
  obtain ⟨f1, f2, f3⟩ := hfirst
  obtain ⟨b1, b2, -, -⟩ := readin_args_negative_facts (readin_args l req slots argv).l argc
    (readin_args l req slots argv).slots (argv + req) hneg f2
  have hr : to_argv_opt l req argc slots argv
      = ⟨(readin_args (readin_args l req slots argv).l argc
            (readin_args l req slots argv).slots (argv + req)).ret,
         (readin_args (readin_args l req slots argv).l argc
            (readin_args l req slots argv).slots (argv + req)).slots, []⟩ := by
    simp only [to_argv_opt, f1, if_false, b2, ne_eq, not_true_eq_false]
  rw [hr]
  refine ⟨rfl, ?_, fun h => ?_⟩
  · show 0 ≤ (readin_args (readin_args l req slots argv).l argc
        (readin_args l req slots argv).slots (argv + req)).ret
    rw [b1]; omega
  · show (readin_args (readin_args l req slots argv).l argc
        (readin_args l req slots argv).slots (argv + req)).ret = (l.length : Int) - req
    rw [b1, f3 h]

theorem readin_args_negative_count_witness :
    (-1 : Int) < 0 ∧ ((["a", "b", "c"].length : Nat) : Int) < 2 ^ 31 ∧
    (readin_args ["a", "b", "c"] (-1) (fun _ => "") 5).ret = (["a", "b", "c"].length : Int) ∧
    (readin_args ["a", "b", "c"] (-1) (fun _ => "") 5).l = [] ∧
    ((to_argv_opt ["a", "b", "c"] 1 (-1) (fun _ => "") 5).diags = [] ∧
      0 ≤ (to_argv_opt ["a", "b", "c"] 1 (-1) (fun _ => "") 5).ret ∧
      ((0 : Int) ≤ 1 →
        (to_argv_opt ["a", "b", "c"] 1 (-1) (fun _ => "") 5).ret
          = (["a", "b", "c"].length : Int) - 1)) :=
  have h := readin_args_negative_count ["a", "b", "c"] (-1) (fun _ => "") 5
    (by decide) (by decide)
  ⟨by decide, by decide, h.1, h.2.1, h.2.2.2 1 (by decide) (by decide)⟩

end Utils
